import Mathlib

/-!
Verification development for the MonitorGA site-change monitor
(source: check_sites.py).  Python text values are modelled as
lists of characters; machine-level concerns (I/O, Telegram API,
browser automation) appear only through their observable effects
(messages emitted, log lines appended, the stored snapshot).
-/

/-- Python text is modelled as a list of characters. -/
abbrev Txt := List Char

/-- Characters treated as whitespace by Python str.strip / str.isspace
(the ASCII part plus the common Latin-1 additions; exotic Unicode
space classes do not occur in the texts handled here). -/
def isPySpace (c : Char) : Bool :=
  c = ' ' ∨ c = '\t' ∨ c = '\n' ∨ c = '\r' ∨ c = '\x0b' ∨ c = '\x0c' ∨
  c = '\x1c' ∨ c = '\x1d' ∨ c = '\x1e' ∨ c = '\x1f' ∨ c = '\x85' ∨ c = '\xa0'

/-- text.replace of the two-character pattern CR LF by LF, scanning left to
right and replacing non-overlapping occurrences, exactly as Python
str.replace does for this pattern (from normalize_text, line 72). -/
def replaceCRLF : Txt → Txt
  | [] => []
  | '\r' :: '\n' :: rest => '\n' :: replaceCRLF rest
  | c :: rest => c :: replaceCRLF rest

/-- Python str.strip(): drop whitespace from the left, then from the right
(from normalize_text, line 72). -/
def pyStrip (s : Txt) : Txt :=
  ((s.dropWhile isPySpace).reverse.dropWhile isPySpace).reverse

/-- normalize_text (check_sites.py line 71-72):
replace CRLF with LF, then strip leading/trailing whitespace. -/
def normalizeText (s : Txt) : Txt := pyStrip (replaceCRLF s)

/-- Python str.rstrip(): drop trailing whitespace (used by wrap_line). -/
def pyRstrip (s : Txt) : Txt := (s.reverse.dropWhile isPySpace).reverse

/-- Line-break characters recognised by Python str.splitlines. -/
def isLineBreak (c : Char) : Bool :=
  c = '\n' ∨ c = '\r' ∨ c = '\x0b' ∨ c = '\x0c' ∨
  c = '\x1c' ∨ c = '\x1d' ∨ c = '\x1e' ∨ c = '\x85' ∨ c = '\u2028' ∨ c = '\u2029'

/-- Worker for pySplitLines: cur is the line fragment accumulated so far. -/
def splitLinesGo : Txt → Txt → List Txt
  | cur, [] => if cur.isEmpty then [] else [cur]
  | cur, '\r' :: '\n' :: rest => cur :: splitLinesGo [] rest
  | cur, c :: rest =>
    if isLineBreak c then cur :: splitLinesGo [] rest
    else splitLinesGo (cur ++ [c]) rest

/-- Python str.splitlines() with keepends=False: CR LF counts as a single
break, a trailing fragment without a terminator still yields a line,
and the empty string yields no lines. -/
def pySplitLines (s : Txt) : List Txt := splitLinesGo [] s

/-! ### User-agent selection (get_page_content, lines 75-117) -/

/-- The mobile user-agent string of get_page_content. -/
def mobileUA : Txt :=
  ("Mozilla/5.0 (iPhone; CPU iPhone OS 14_0 like Mac OS X) AppleWebKit/605.1.15 (KHTML, like Gecko) Version/14.0 Mobile/15E148 Safari/604.1").data

/-- The desktop user-agent string of get_page_content. -/
def desktopUA : Txt :=
  ("Mozilla/5.0 (Windows NT 10.0; Win64; x64) AppleWebKit/537.36 (KHTML, like Gecko) Chrome/138.0.0.0 Safari/537.36").data

/-- Python substring containment (the in operator on str): pat occurs as a
contiguous substring of s. -/
def containsSub (pat : Txt) : Txt → Bool
  | [] => pat.isEmpty
  | c :: rest => pat.isPrefixOf (c :: rest) || containsSub pat rest

/-- Line 81: is_mobile_domain is the Python substring test ("m." in domain)
applied to the parsed host. -/
def isMobileDomain (domain : Txt) : Bool := containsSub (("m.").data) domain

/-- User-agent selection of get_page_content.  Both the dynamic
(Playwright) branch and the static (requests) branch evaluate the same
conditional expression on is_mobile_domain, so the fetch mode parameter
does not influence the choice. -/
def selectUserAgent (_dynamic : Bool) (domain : Txt) : Txt :=
  if isMobileDomain domain then mobileUA else desktopUA

/-! ### Line wrapping (wrap_line, lines 220-262) -/

/-- Tokeniser of wrap_line (lines 225-236): split into words, keeping each
whitespace character as a token of its own; cur is the pending word. -/
def wrapTokensGo : Txt → Txt → List Txt
  | cur, [] => if cur.isEmpty then [] else [cur]
  | cur, c :: rest =>
    if isPySpace c then
      if cur.isEmpty then [c] :: wrapTokensGo [] rest
      else cur :: [c] :: wrapTokensGo [] rest
    else wrapTokensGo (cur ++ [c]) rest

/-- The token list of a line, as built by wrap_line. -/
def wrapTokens (line : Txt) : List Txt := wrapTokensGo [] line

/-- Greedy accumulation loop of wrap_line (lines 239-260).  measure models
the font width query (bbox right minus bbox left); maxW is an integer
because the caller may pass a width budget that is negative in Python. -/
def wrapGo (measure : Txt → Nat) (maxW : Int) : List Txt → Txt → List Txt
  | [], cur => if cur.isEmpty then [] else [pyRstrip cur]
  | w :: ws, cur =>
    let test := cur ++ w
    if ¬cur.isEmpty ∧ maxW < (measure test : Int) then
      pyRstrip cur :: wrapGo measure maxW ws w
    else wrapGo measure maxW ws test

/-- wrap_line (lines 220-262): split a long line into several lines so that
each measures at most maxW, never splitting inside a word. -/
def wrapLine (measure : Txt → Nat) (maxW : Int) (line : Txt) : List Txt :=
  wrapGo measure maxW (wrapTokens line) []

/-! ### diff_to_image geometry and colouring (lines 265-406) -/

/-- Line processing of diff_to_image (lines 321-334): a raw diff line whose
measured width exceeds the content width budget is wrapped, others are
kept as they are. -/
def processOneLine (measure : Txt → Nat) (maxContentWidth : Int) (line : Txt) : List Txt :=
  if maxContentWidth < (measure line : Int) then wrapLine measure maxContentWidth line
  else [line]

/-- All processed (possibly wrapped) lines of the rendered image. -/
def processedLines (measure : Txt → Nat) (maxW leftMargin rightMargin : Int) (diffText : Txt) :
    List Txt :=
  ((pySplitLines diffText).map
    (processOneLine measure (maxW - leftMargin - rightMargin))).flatten

/-- Width in pixels of the line-number gutter text (lines 337-344): the
measured width of the largest line number plus a 20px margin, or 0 when
there are no lines. -/
def lineNumberWidth (measure : Txt → Nat) (diffText : Txt) : Int :=
  let rawCount := (pySplitLines diffText).length
  if rawCount = 0 then 0 else (measure (Nat.repr rawCount).data : Int) + 20

/-- Canvas height (line 347): min(lineHeight * lineCount + 20, 2000). -/
def imageHeight (measure : Txt → Nat) (lineHeight : Int)
    (maxW leftMargin rightMargin : Int) (diffText : Txt) : Int :=
  min (lineHeight * ((processedLines measure maxW leftMargin rightMargin diffText).length : Int) + 20)
    2000

/-- Largest measured width among the processed lines (lines 350-355). -/
def maxLineWidth (measure : Txt → Nat) (maxW leftMargin rightMargin : Int) (diffText : Txt) :
    Int :=
  (processedLines measure maxW leftMargin rightMargin diffText).foldl
    (fun acc line => max acc (measure line : Int)) 0

/-- Canvas width (lines 358-361):
min(max(maxLineWidth + margins + gutter, minW), maxW). -/
def imageWidth (measure : Txt → Nat) (minW maxW leftMargin rightMargin : Int) (diffText : Txt) :
    Int :=
  min
    (max (maxLineWidth measure maxW leftMargin rightMargin diffText + leftMargin + rightMargin +
      lineNumberWidth measure diffText) minW)
    maxW

/-- Colour rule of diff_to_image (lines 388-396), keyed on the first
character of the processed line; colours are RGB triples. -/
def lineColor : Txt → Nat × Nat × Nat
  | '+' :: _ => (155, 185, 85)
  | '-' :: _ => (224, 108, 117)
  | '@' :: _ => (86, 156, 214)
  | _ => (212, 212, 212)

/-- The four diff marker characters tested on line 400. -/
def isDiffMarker (c : Char) : Bool := c = '+' ∨ c = '-' ∨ c = '@' ∨ c = ' '

/-- Marker stripping of diff_to_image (lines 398-401): the first character
is removed only when it is a diff marker and the line has length > 1. -/
def cleanLine : Txt → Txt
  | [] => []
  | c :: rest =>
    if isDiffMarker c then (if rest.isEmpty then c :: rest else rest)
    else c :: rest

/-! ### difflib embedding

compare_and_notify_async (lines 499-505) computes
difflib.unified_diff(old.splitlines(), new.splitlines(), n=3).
The definitions below embed the Python standard library code that this
call executes: SequenceMatcher(None, a, b) — so with no junk predicate
but with the default autojunk popularity heuristic — its
find_longest_match / get_matching_blocks / get_opcodes /
get_grouped_opcodes chain, and the unified_diff generator with its
default fromfile/tofile/lineterm arguments. -/

/-- Number of occurrences of a line in b (SequenceMatcher.__chain_b). -/
def countOcc (b : List Txt) (x : Txt) : Nat := (b.filter (fun y => y = x)).length

/-- The autojunk popularity test of SequenceMatcher.__chain_b: when b has
at least 200 elements, elements occurring more than len(b)//100 + 1
times are dropped from the index. -/
def isPopular (b : List Txt) (x : Txt) : Bool :=
  200 ≤ b.length ∧ b.length / 100 + 1 < countOcc b x

/-- b2j of SequenceMatcher: the increasing list of indices of x in b,
empty when x is popular. -/
def b2jList (b : List Txt) (x : Txt) : List Nat :=
  if isPopular b x then []
  else (List.range b.length).filter (fun j => b[j]? = some x)

/-- bjunk membership; SequenceMatcher is constructed with isjunk=None, so
the junk set is empty. -/
def isbjunk (_x : Txt) : Bool := false

/-- The continue/break filtering of the inner loop of find_longest_match:
skip indices below blo, stop at the first index at or above bhi. -/
def scanJs (blo bhi : Nat) : List Nat → List Nat
  | [] => []
  | j :: js =>
    if j < blo then scanJs blo bhi js
    else if bhi ≤ j then []
    else j :: scanJs blo bhi js

/-- Indices j iterated by the inner loop of find_longest_match at outer
index i (Python would fault if i were out of range; such calls do not
occur). -/
def jIndices (a b : List Txt) (blo bhi i : Nat) : List Nat :=
  match a[i]? with
  | none => []
  | some x => scanJs blo bhi (b2jList b x)

/-- Inner loop of find_longest_match: j2old is the j2len map of the
previous outer step (as a total function defaulting to 0, matching
dict.get(j-1, 0); the lookup at j-1 for j = 0 is Python's lookup at -1,
which yields the default). -/
def innerLoop (j2old : Nat → Nat) (i : Nat) :
    List Nat → (Nat → Nat) → Nat × Nat × Nat → (Nat → Nat) × (Nat × Nat × Nat)
  | [], new, best => (new, best)
  | j :: js, new, best =>
    let k := (if j = 0 then 0 else j2old (j - 1)) + 1
    let new2 := fun j2 => if j2 = j then k else new j2
    let best2 := if best.2.2 < k then (i + 1 - k, j + 1 - k, k) else best
    innerLoop j2old i js new2 best2

/-- Outer loop of find_longest_match over the indices of range(alo, ahi). -/
def outerLoop (a b : List Txt) (blo bhi : Nat) :
    List Nat → (Nat → Nat) → Nat × Nat × Nat → (Nat → Nat) × (Nat × Nat × Nat)
  | [], j2len, best => (j2len, best)
  | i :: is, j2len, best =>
    let st := innerLoop j2len i (jIndices a b blo bhi i) (fun _ => 0) best
    outerLoop a b blo bhi is st.1 st.2

/-- First extension loop of find_longest_match: extend the match backwards
over non-junk equal elements. -/
def extendBackNonjunk (a b : List Txt) (alo blo : Nat) (besti bestj bestsize : Nat) :
    Nat × Nat × Nat :=
  if h : alo < besti ∧ blo < bestj ∧ isbjunk (b.getD (bestj - 1) []) = false ∧
      a[besti - 1]? = b[bestj - 1]? ∧ (a[besti - 1]?).isSome then
    extendBackNonjunk a b alo blo (besti - 1) (bestj - 1) (bestsize + 1)
  else (besti, bestj, bestsize)
termination_by besti
decreasing_by omega

/-- Second extension loop: extend forwards over non-junk equal elements. -/
def extendFwdNonjunk (a b : List Txt) (ahi bhi : Nat) (besti bestj bestsize : Nat) :
    Nat × Nat × Nat :=
  if h : besti + bestsize < ahi ∧ bestj + bestsize < bhi ∧
      isbjunk (b.getD (bestj + bestsize) []) = false ∧
      a[besti + bestsize]? = b[bestj + bestsize]? ∧ (a[besti + bestsize]?).isSome then
    extendFwdNonjunk a b ahi bhi besti bestj (bestsize + 1)
  else (besti, bestj, bestsize)
termination_by ahi - (besti + bestsize)
decreasing_by omega

/-- Third extension loop: extend backwards over junk equal elements (never
fires here because the junk set is empty). -/
def extendBackJunk (a b : List Txt) (alo blo : Nat) (besti bestj bestsize : Nat) :
    Nat × Nat × Nat :=
  if h : alo < besti ∧ blo < bestj ∧ isbjunk (b.getD (bestj - 1) []) = true ∧
      a[besti - 1]? = b[bestj - 1]? ∧ (a[besti - 1]?).isSome then
    extendBackJunk a b alo blo (besti - 1) (bestj - 1) (bestsize + 1)
  else (besti, bestj, bestsize)
termination_by besti
decreasing_by omega

/-- Fourth extension loop: extend forwards over junk equal elements (never
fires here because the junk set is empty). -/
def extendFwdJunk (a b : List Txt) (ahi bhi : Nat) (besti bestj bestsize : Nat) :
    Nat × Nat × Nat :=
  if h : besti + bestsize < ahi ∧ bestj + bestsize < bhi ∧
      isbjunk (b.getD (bestj + bestsize) []) = true ∧
      a[besti + bestsize]? = b[bestj + bestsize]? ∧ (a[besti + bestsize]?).isSome then
    extendFwdJunk a b ahi bhi besti bestj (bestsize + 1)
  else (besti, bestj, bestsize)
termination_by ahi - (besti + bestsize)
decreasing_by omega

/-- SequenceMatcher.find_longest_match(alo, ahi, blo, bhi): dynamic
programming pass, then the four extension loops.  The Python update
besti = i-k+1 is written i+1-k; the two agree because the chain length
k never exceeds i+1. -/
def findLongestMatch (a b : List Txt) (alo ahi blo bhi : Nat) : Nat × Nat × Nat :=
  let dp := outerLoop a b blo bhi (List.range' alo (ahi - alo)) (fun _ => 0) (alo, blo, 0)
  let m1 := extendBackNonjunk a b alo blo dp.2.1 dp.2.2.1 dp.2.2.2
  let m2 := extendFwdNonjunk a b ahi bhi m1.1 m1.2.1 m1.2.2
  let m3 := extendBackJunk a b alo blo m2.1 m2.2.1 m2.2.2
  extendFwdJunk a b ahi bhi m3.1 m3.2.1 m3.2.2

/-- Queue loop of get_matching_blocks.  The queue is a stack (Python pops
from the end; here the head is the top, and the two guarded pushes are
placed so that the later Python push is popped first).  The fuel
argument bounds the number of iterations; the Python loop terminates
because every iteration removes strictly more total range size than it
pushes, and the initial fuel len(a)+len(b)+1 is enough for every call
made here. -/
def gmbLoop (a b : List Txt) :
    Nat → List (Nat × Nat × Nat × Nat) → List (Nat × Nat × Nat) → List (Nat × Nat × Nat)
  | 0, _, acc => acc
  | _ + 1, [], acc => acc
  | fuel + 1, (alo, ahi, blo, bhi) :: rest, acc =>
    let m := findLongestMatch a b alo ahi blo bhi
    let i := m.1
    let j := m.2.1
    let k := m.2.2
    let acc2 := if k ≠ 0 then acc ++ [(i, j, k)] else acc
    let push2 := if k ≠ 0 ∧ i + k < ahi ∧ j + k < bhi then [(i + k, ahi, j + k, bhi)] else []
    let push1 := if k ≠ 0 ∧ alo < i ∧ blo < j then [(alo, i, blo, j)] else []
    gmbLoop a b fuel (push2 ++ push1 ++ rest) acc2

/-- Lexicographic comparison of match triples, as used by list.sort(). -/
def lexLe (x y : Nat × Nat × Nat) : Bool :=
  x.1 < y.1 ∨ (x.1 = y.1 ∧ (x.2.1 < y.2.1 ∨ (x.2.1 = y.2.1 ∧ x.2.2 ≤ y.2.2)))

/-- Sorted insertion for match triples. -/
def insertBlock (x : Nat × Nat × Nat) : List (Nat × Nat × Nat) → List (Nat × Nat × Nat)
  | [] => [x]
  | y :: ys => if lexLe x y then x :: y :: ys else y :: insertBlock x ys

/-- matching_blocks.sort(): sorting is insertion sort here; since lexLe is
a total order on triples, the result agrees with any stable sort. -/
def sortBlocks : List (Nat × Nat × Nat) → List (Nat × Nat × Nat)
  | [] => []
  | x :: xs => insertBlock x (sortBlocks xs)

/-- Adjacent-block merging at the end of get_matching_blocks; the first
argument carries (i1, j1, k1), initially (0, 0, 0). -/
def mergeBlocks : Nat × Nat × Nat → List (Nat × Nat × Nat) → List (Nat × Nat × Nat)
  | (i1, j1, k1), [] => if k1 ≠ 0 then [(i1, j1, k1)] else []
  | (i1, j1, k1), (i2, j2, k2) :: rest =>
    if i1 + k1 = i2 ∧ j1 + k1 = j2 then mergeBlocks (i1, j1, k1 + k2) rest
    else (if k1 ≠ 0 then [(i1, j1, k1)] else []) ++ mergeBlocks (i2, j2, k2) rest

/-- SequenceMatcher.get_matching_blocks, including the final sentinel
(len(a), len(b), 0). -/
def getMatchingBlocks (a b : List Txt) : List (Nat × Nat × Nat) :=
  let la := a.length
  let lb := b.length
  mergeBlocks (0, 0, 0)
      (sortBlocks (gmbLoop a b (la + lb + 1) [(0, la, 0, lb)] [])) ++
    [(la, lb, 0)]

/-- Opcode tags of SequenceMatcher.get_opcodes. -/
inductive DTag | replace | delete | insert | equal
deriving DecidableEq, Repr

/-- One opcode: (tag, i1, i2, j1, j2). -/
abbrev Opcode := DTag × Nat × Nat × Nat × Nat

/-- Loop of get_opcodes over the matching blocks, carrying the current
positions i and j. -/
def opcodesGo : Nat → Nat → List (Nat × Nat × Nat) → List Opcode
  | _, _, [] => []
  | i, j, (ai, bj, size) :: rest =>
    let tagged : List Opcode :=
      if i < ai ∧ j < bj then [(DTag.replace, i, ai, j, bj)]
      else if i < ai then [(DTag.delete, i, ai, j, bj)]
      else if j < bj then [(DTag.insert, i, ai, j, bj)]
      else []
    let eq : List Opcode :=
      if size ≠ 0 then [(DTag.equal, ai, ai + size, bj, bj + size)] else []
    tagged ++ eq ++ opcodesGo (ai + size) (bj + size) rest

/-- SequenceMatcher.get_opcodes. -/
def getOpcodes (a b : List Txt) : List Opcode := opcodesGo 0 0 (getMatchingBlocks a b)

/-- Replace the first element of a list. -/
def modifyFirst (f : α → α) : List α → List α
  | [] => []
  | x :: xs => f x :: xs

/-- Replace the last element of a list. -/
def modifyLast (f : α → α) : List α → List α
  | [] => []
  | [x] => [f x]
  | x :: y :: xs => x :: modifyLast f (y :: xs)

/-- get_grouped_opcodes: trim a leading equal opcode to n context lines. -/
def trimStart (n : Nat) (op : Opcode) : Opcode :=
  if op.1 = DTag.equal then (op.1, max op.2.1 (op.2.2.1 - n), op.2.2.1, max op.2.2.2.1 (op.2.2.2.2 - n), op.2.2.2.2)
  else op

/-- get_grouped_opcodes: trim a trailing equal opcode to n context lines. -/
def trimEnd (n : Nat) (op : Opcode) : Opcode :=
  if op.1 = DTag.equal then (op.1, op.2.1, min op.2.2.1 (op.2.1 + n), op.2.2.2.1, min op.2.2.2.2 (op.2.2.2.1 + n))
  else op

/-- Grouping loop of get_grouped_opcodes: a large equal opcode ends the
current group (with the equal trimmed on both sides) and starts the
next; a final group consisting of a single equal opcode is dropped. -/
def groupSplit (nn n : Nat) : List Opcode → List Opcode → List (List Opcode)
  | group, [] =>
    match group with
    | [] => []
    | [op] => if op.1 = DTag.equal then [] else [[op]]
    | _ => [group]
  | group, (tag, i1, i2, j1, j2) :: rest =>
    if tag = DTag.equal ∧ nn < i2 - i1 then
      (group ++ [(tag, i1, min i2 (i1 + n), j1, min j2 (j1 + n))]) ::
        groupSplit nn n [(tag, max i1 (i2 - n), i2, max j1 (j2 - n), j2)] rest
    else groupSplit nn n (group ++ [(tag, i1, i2, j1, j2)]) rest

/-- SequenceMatcher.get_grouped_opcodes(n). -/
def getGroupedOpcodes (a b : List Txt) (n : Nat) : List (List Opcode) :=
  let codes0 := getOpcodes a b
  let codes1 := if codes0.isEmpty then [(DTag.equal, 0, 1, 0, 1)] else codes0
  let codes2 := modifyFirst (trimStart n) codes1
  let codes3 := modifyLast (trimEnd n) codes2
  groupSplit (n + n) n [] codes3

/-- difflib._format_range_unified. -/
def formatRangeUnified (start stop : Nat) : Txt :=
  let len := stop - start
  if len = 1 then (Nat.repr (start + 1)).data
  else
    let beginning := if len = 0 then start else start + 1
    (Nat.repr beginning).data ++ (",").data ++ (Nat.repr len).data

/-- The lines a unified diff emits for one opcode. -/
def opcodeLines (a b : List Txt) (op : Opcode) : List Txt :=
  match op with
  | (DTag.equal, i1, i2, _, _) => ((a.drop i1).take (i2 - i1)).map (fun l => ' ' :: l)
  | (DTag.replace, i1, i2, j1, j2) =>
    ((a.drop i1).take (i2 - i1)).map (fun l => '-' :: l) ++
      ((b.drop j1).take (j2 - j1)).map (fun l => '+' :: l)
  | (DTag.delete, i1, i2, _, _) => ((a.drop i1).take (i2 - i1)).map (fun l => '-' :: l)
  | (DTag.insert, _, _, j1, j2) => ((b.drop j1).take (j2 - j1)).map (fun l => '+' :: l)

/-- The lines a unified diff emits for one group: the @@ hunk header
(lineterm is the default newline) followed by the opcode lines. -/
def groupBody (a b : List Txt) : List Opcode → List Txt
  | [] => []
  | first :: rest =>
    let lastOp := rest.getLastD first
    (("@@ -").data ++ formatRangeUnified first.2.1 lastOp.2.2.1 ++ (" +").data ++
        formatRangeUnified first.2.2.2.1 lastOp.2.2.2.2 ++ (" @@\n").data) ::
      ((first :: rest).map (opcodeLines a b)).flatten

/-- difflib.unified_diff(a, b, n) with the default empty file names and
dates and the default lineterm: the two header lines are produced only
when at least one group exists. -/
def unifiedDiff (a b : List Txt) (n : Nat) : List Txt :=
  let groups := getGroupedOpcodes a b n
  if groups.isEmpty then []
  else ("--- \n").data :: ("+++ \n").data :: (groups.map (groupBody a b)).flatten

/-! ### Orchestration (compare_and_notify_async, lines 442-527)

The orchestrator is modelled as a pure function from its observable
inputs to its observable effects.  get_page_content returns either a
page body (already normalized) or a text starting with ERROR: ; the
orchestrator distinguishes the two by that prefix (line 449).
format_html_content is BeautifulSoup-based thin glue and enters the
model as an opaque function parameter fmtHtml.  An exception raised
inside the try block of the changed path (lines 467-520) is modelled by
the raisedErr parameter carrying its message text. -/

/-- The two notification destinations: ADMIN_USER_ID and CHANNEL_ID. -/
inductive Dest | admin | channel
deriving DecidableEq, Repr

/-- An outbound Telegram call: a text message or a photo with caption. -/
inductive Msg
  | text (dest : Dest) (body : Txt)
  | photo (dest : Dest) (caption : Txt)
deriving DecidableEq, Repr

/-- Observable outcome of one compare_and_notify_async call: messages
sent (in order), audit log lines appended, the snapshot file content
afterwards, whether a diff image file was written, and the unified diff
line list when one was computed. -/
structure CycleResult where
  msgs : List Msg
  log : List Txt
  snapshot : Option Txt
  imageWritten : Bool
  diffLines : Option (List Txt)
deriving DecidableEq, Repr

/-- Line 450: the fetch-failure alert text. -/
def fetchFailMsg (url ts content : Txt) : Txt :=
  ("⚠️ 无法访问: ").data ++ url ++ ("\n时间: ").data ++ ts ++ ("\n错误信息: ").data ++ content

/-- Line 453: the fetch-failure audit log line. -/
def fetchFailLog (url ts content : Txt) : Txt :=
  ("[").data ++ ts ++ ("] ").data ++ url ++ (" 访问失败: ").data ++ content ++ ("\n").data

/-- Line 463: the first-capture notice text. -/
def firstCaptureMsg (url ts : Txt) : Txt :=
  ("📥📥 首次抓取内容: ").data ++ url ++ ("\n时间: ").data ++ ts

/-- Line 512: the content-update caption. -/
def updateCaption (url ts : Txt) : Txt :=
  ("🔍🔍 内容更新: ").data ++ url ++ ("\n时间: ").data ++ ts

/-- Line 519: the comparison-failure alert text. -/
def compareFailMsg (url err : Txt) : Txt :=
  ("⚠️ 内容比较失败: ").data ++ url ++ ("\n错误信息: ").data ++ err

/-- Line 524: the per-cycle audit log line shared by all non-error paths. -/
def capturedLog (url ts : Txt) : Txt :=
  ("[").data ++ ts ++ ("] ").data ++ url ++ (" 已抓取/更新\n").data

/-- Line 449: fetch failures are recognised by the ERROR: prefix. -/
def startsWithError (content : Txt) : Bool := (("ERROR:").data).isPrefixOf content

/-- compare_and_notify_async (lines 442-527).  content is the value
returned by get_page_content; stored is the snapshot file content (none
when the file does not exist); raisedErr = some e models an exception
with message e raised inside the try block of the comparison path (for
definiteness, before the diff is computed — the log/snapshot effects do
not depend on the raise point). -/
def compareAndNotify (fmtHtml : Txt → Txt) (content : Txt) (stored : Option Txt)
    (isText : Bool) (raisedErr : Option Txt) (url ts : Txt) : CycleResult :=
  if startsWithError content then
    { msgs := [Msg.text Dest.admin (fetchFailMsg url ts content)]
      log := [fetchFailLog url ts content]
      snapshot := stored
      imageWritten := false
      diffLines := none }
  else
    let c := if isText then content else fmtHtml content
    match stored with
    | none =>
      { msgs := [Msg.text Dest.channel (firstCaptureMsg url ts)]
        log := [capturedLog url ts]
        snapshot := some c
        imageWritten := false
        diffLines := none }
    | some old0 =>
      let oldN := normalizeText (if isText then old0 else fmtHtml old0)
      if oldN ≠ c then
        match raisedErr with
        | some err =>
          { msgs := [Msg.text Dest.admin (compareFailMsg url err)]
            log := [capturedLog url ts]
            snapshot := some c
            imageWritten := false
            diffLines := none }
        | none =>
          { msgs := [Msg.photo Dest.channel (updateCaption url ts)]
            log := [capturedLog url ts]
            snapshot := some c
            imageWritten := true
            diffLines := some (unifiedDiff (pySplitLines oldN) (pySplitLines c) 3) }
      else
        { msgs := []
          log := [capturedLog url ts]
          snapshot := some c
          imageWritten := false
          diffLines := none }

/-! ### Lemmas about the normalizer -/

/-- On a text without CR LF, the replacement is the identity. -/
theorem replaceCRLF_eq_self : ∀ s : Txt, ¬ (('\r' :: '\n' :: []) <:+: s) → replaceCRLF s = s := by
  intro s
  induction s using replaceCRLF.induct with
  | case1 => intro _; rfl
  | case2 rest ih =>
    intro h
    exact absurd ⟨[], rest, rfl⟩ h
  | case3 c rest hne ih =>
    intro h
    have h2 : ¬ (('\r' :: '\n' :: []) <:+: rest) := fun hin =>
      h (hin.trans (List.suffix_cons c rest).isInfix)
    rw [replaceCRLF.eq_3 c rest hne, ih h2]

/-- A two-character pattern is an infix of a cons iff it is a prefix there
or an infix of the tail. -/
theorem pair_infix_cons {p : Txt} {c : Char} {l : Txt} :
    p <:+: c :: l → p <+: c :: l ∨ p <:+: l :=
  List.infix_cons_iff.mp

/-- If the input has no CR CR LF, the output of the replacement has no
CR LF left in it. -/
theorem replaceCRLF_no_crlf : ∀ s : Txt, ¬ (('\r' :: '\r' :: '\n' :: []) <:+: s) →
    ¬ (('\r' :: '\n' :: []) <:+: replaceCRLF s) := by
  intro s
  induction s using replaceCRLF.induct with
  | case1 =>
    intro _ hin
    simp [replaceCRLF] at hin
  | case2 rest ih =>
    intro h hin
    have h2 : ¬ (('\r' :: '\r' :: '\n' :: []) <:+: rest) := fun hr =>
      h (hr.trans ((List.suffix_cons '\n' rest).isInfix.trans
        (List.suffix_cons '\r' ('\n' :: rest)).isInfix))
    rw [replaceCRLF.eq_2] at hin
    rcases pair_infix_cons hin with hpre | htail
    · rcases hpre with ⟨t, ht⟩
      simp at ht
    · exact ih h2 htail
  | case3 c rest hne ih =>
    intro h hin
    have h2 : ¬ (('\r' :: '\r' :: '\n' :: []) <:+: rest) := fun hr =>
      h (hr.trans (List.suffix_cons c rest).isInfix)
    rw [replaceCRLF.eq_3 c rest hne] at hin
    rcases pair_infix_cons hin with hpre | htail
    · rcases hpre with ⟨t, ht⟩
      simp at ht
      obtain ⟨hc, hrest⟩ := ht
      -- c = CR and replaceCRLF rest starts with LF
      cases rest with
      | nil => simp [replaceCRLF] at hrest
      | cons d t2 =>
        by_cases hd : d = '\r' ∧ t2.head? = some '\n'
        · -- rest itself starts with CR LF, so s starts with CR CR LF
          obtain ⟨hd1, hd2⟩ := hd
          cases t2 with
          | nil => simp at hd2
          | cons e t3 =>
            simp at hd2
            exact h ⟨[], t3, by simp [← hc, hd1, hd2]⟩
        · -- the head of the replaced tail is d itself, and d must be LF,
          -- contradicting the guard of this case
          have hrw : replaceCRLF (d :: t2) = d :: replaceCRLF t2 := by
            apply replaceCRLF.eq_3
            intro r1 hdr ht2
            exact hd ⟨hdr, by rw [ht2]; rfl⟩
          rw [hrw] at hrest
          obtain ⟨hdn, -⟩ := by
            simpa using hrest
          exact hne t2 hc.symm (by rw [hdn])
    · exact ih h2 htail

/-- pyStrip produces a contiguous substring of its argument. -/
theorem pyStrip_substring (s : Txt) : pyStrip s <:+: s := by
  have h1 : s.dropWhile isPySpace <:+ s := List.dropWhile_suffix _
  have h2 : ((s.dropWhile isPySpace).reverse.dropWhile isPySpace).reverse <+:
      s.dropWhile isPySpace := by
    conv_rhs => rw [← List.reverse_reverse (s.dropWhile isPySpace)]
    exact List.reverse_prefix.mpr (List.dropWhile_suffix _)
  exact h2.isInfix.trans h1.isInfix

/-- The head of a dropWhile output does not satisfy the predicate. -/
theorem head_dropWhile_false (p : Char → Bool) :
    ∀ l : Txt, ∀ c : Char, (l.dropWhile p).head? = some c → p c = false := by
  intro l
  induction l with
  | nil => intro c hc; simp at hc
  | cons d t ih =>
    intro c hc
    by_cases hd : p d
    · rw [List.dropWhile_cons_of_pos hd] at hc
      exact ih c hc
    · rw [List.dropWhile_cons_of_neg hd] at hc
      simp at hc
      rw [← hc]
      exact Bool.not_eq_true _ |>.mp hd

/-- dropWhile is the identity when the head does not satisfy the
predicate. -/
theorem dropWhile_eq_self_of_head (p : Char → Bool) (l : Txt)
    (h : ∀ c : Char, l.head? = some c → p c = false) : l.dropWhile p = l := by
  cases l with
  | nil => rfl
  | cons d t => exact List.dropWhile_cons_of_neg (by simp [h d rfl])

/-- pyStrip is the identity on a text whose first and last characters are
not whitespace. -/
theorem pyStrip_eq_self (v : Txt)
    (hhead : ∀ c : Char, v.head? = some c → isPySpace c = false)
    (hlast : ∀ c : Char, v.reverse.head? = some c → isPySpace c = false) :
    pyStrip v = v := by
  unfold pyStrip
  rw [dropWhile_eq_self_of_head isPySpace v hhead,
    dropWhile_eq_self_of_head isPySpace v.reverse hlast, List.reverse_reverse]

/-- pyStrip is idempotent. -/
theorem pyStrip_idem (s : Txt) : pyStrip (pyStrip s) = pyStrip s := by
  have hvp : pyStrip s <+: s.dropWhile isPySpace := by
    unfold pyStrip
    conv_rhs => rw [← List.reverse_reverse (s.dropWhile isPySpace)]
    exact List.reverse_prefix.mpr (List.dropWhile_suffix _)
  apply pyStrip_eq_self
  · intro c hc
    rcases hvp with ⟨t, ht⟩
    have hu : (s.dropWhile isPySpace).head? = some c := by
      rw [← ht]
      cases hps : pyStrip s with
      | nil => rw [hps] at hc; simp at hc
      | cons x xs =>
        rw [hps] at hc
        simp at hc
        simp [hc]
    exact head_dropWhile_false isPySpace s c hu
  · intro c hc
    have hvr : (pyStrip s).reverse = (s.dropWhile isPySpace).reverse.dropWhile isPySpace := by
      unfold pyStrip
      rw [List.reverse_reverse]
    rw [hvr] at hc
    exact head_dropWhile_false isPySpace (s.dropWhile isPySpace).reverse c hc

/-- Claim C4, amended: the normalizer is idempotent on every input that
does not contain the three-character sequence CR CR LF. -/
theorem normalizeText_idem (s : Txt) (h : ¬ (('\r' :: '\r' :: '\n' :: []) <:+: s)) :
    normalizeText (normalizeText s) = normalizeText s := by
  have h1 : ¬ (('\r' :: '\n' :: []) <:+: replaceCRLF s) := replaceCRLF_no_crlf s h
  have h2 : ¬ (('\r' :: '\n' :: []) <:+: normalizeText s) := fun hin =>
    h1 (hin.trans (pyStrip_substring (replaceCRLF s)))
  show pyStrip (replaceCRLF (normalizeText s)) = normalizeText s
  rw [replaceCRLF_eq_self _ h2]
  exact pyStrip_idem (replaceCRLF s)

/-- Claim C4, counterexample: normalize is not idempotent on a CR CR LF
input, because Python replace scans left to right and leaves a fresh
CR LF behind. -/
theorem normalizeText_not_idempotent :
    normalizeText (normalizeText (("a\r\r\nb").data)) ≠ normalizeText (("a\r\r\nb").data) := by
  decide

/-- Claim C4, witness for the amended statement at a concrete input. -/
theorem normalizeText_idem_witness :
    normalizeText (normalizeText (("a\r\nb ").data)) = normalizeText (("a\r\nb ").data) :=
  normalizeText_idem (("a\r\nb ").data) (by decide)

/-! ### Lemmas about wrap_line and the image geometry -/

/-- The tokeniser of wrap_line loses no characters: the tokens concatenate
back to the pending word followed by the rest of the input. -/
theorem wrapTokensGo_flatten : ∀ (l cur : Txt), (wrapTokensGo cur l).flatten = cur ++ l := by
  intro l
  induction l with
  | nil =>
    intro cur
    by_cases hc : cur.isEmpty
    · simp [wrapTokensGo, hc, List.isEmpty_iff.mp hc]
    · simp [wrapTokensGo, hc]
  | cons c rest ih =>
    intro cur
    by_cases hs : isPySpace c
    · by_cases hc : cur.isEmpty
      · simp [wrapTokensGo, hs, hc, List.isEmpty_iff.mp hc, ih]
      · simp [wrapTokensGo, hs, hc, ih]
    · simp [wrapTokensGo, hs, ih (cur ++ [c])]

/-- When every flush test fails (each prefix measures within the budget),
the greedy loop accumulates everything into one output line. -/
theorem wrapGo_all_fit (measure : Txt → Nat) (maxW : Int) (line : Txt)
    (hline : line ≠ [])
    (hmono : ∀ s t : Txt, measure s ≤ measure (s ++ t))
    (hw : (measure line : Int) ≤ maxW) :
    ∀ (ws : List Txt) (cur : Txt), cur ++ ws.flatten = line →
      wrapGo measure maxW ws cur = [pyRstrip line] := by
  intro ws
  induction ws with
  | nil =>
    intro cur hcat
    simp at hcat
    subst hcat
    simp [wrapGo, List.isEmpty_iff, hline]
  | cons w ws ih =>
    intro cur hcat
    have htest : (cur ++ w) ++ ws.flatten = line := by
      rw [← hcat]
      simp [List.flatten_cons]
    have hm : (measure (cur ++ w) : Int) ≤ maxW := by
      refine le_trans ?_ hw
      have := hmono (cur ++ w) ws.flatten
      rw [htest] at this
      exact_mod_cast this
    show wrapGo measure maxW (w :: ws) cur = [pyRstrip line]
    rw [wrapGo]
    rw [if_neg (by simp; intro _; exact hm)]
    exact ih (cur ++ w) htest

/-- Claim C7, amended: for a nonempty line measuring within maxW under a
measure that never shrinks when text is appended (as a font width
does), wrap_line returns exactly one line: the input with trailing
whitespace stripped. -/
theorem wrapLine_fits (measure : Txt → Nat) (maxW : Int) (line : Txt)
    (hline : line ≠ [])
    (hmono : ∀ s t : Txt, measure s ≤ measure (s ++ t))
    (hw : (measure line : Int) ≤ maxW) :
    wrapLine measure maxW line = [pyRstrip line] :=
  wrapGo_all_fit measure maxW line hline hmono hw (wrapTokens line) []
    (by simpa [wrapTokens] using wrapTokensGo_flatten line [])

/-- Claim C7, witness for the amended statement. -/
theorem wrapLine_fits_witness :
    wrapLine (fun s : Txt => s.length) 10 (("hi ho").data) = [pyRstrip (("hi ho").data)] :=
  wrapLine_fits (fun s : Txt => s.length) 10 (("hi ho").data) (by decide)
    (fun s t => by simp) (by decide)

/-- Claim C7, counterexample: the empty line measures within any
non-negative budget, yet wrap_line returns no output line at all
(the claim demands exactly one). -/
theorem wrapLine_empty_cex :
    ((fun s : Txt => s.length) ([] : Txt) : Int) ≤ 10 ∧
      wrapLine (fun s : Txt => s.length) 10 ([] : Txt) = [] := by
  constructor
  · decide
  · rfl

/-- On a whitespace-free input the tokeniser yields the single pending
word extended by the whole input. -/
theorem wrapTokensGo_no_space : ∀ (l cur : Txt), (∀ c ∈ l, isPySpace c = false) →
    wrapTokensGo cur l = if (cur ++ l).isEmpty then [] else [cur ++ l] := by
  intro l
  induction l with
  | nil => intro cur _; simp [wrapTokensGo]
  | cons c rest ih =>
    intro cur h
    have hc : isPySpace c = false := h c (by simp)
    rw [wrapTokensGo]
    simp only [hc]
    rw [if_neg (by simp)]
    rw [ih (cur ++ [c]) (fun d hd => h d (by simp [hd]))]
    simp

/-- dropWhile removes nothing from a list none of whose elements satisfy
the predicate. -/
theorem dropWhile_eq_self_of_all (p : Char → Bool) (l : Txt)
    (h : ∀ c ∈ l, p c = false) : l.dropWhile p = l := by
  apply dropWhile_eq_self_of_head
  intro c hc
  cases l with
  | nil => simp at hc
  | cons d t =>
    simp at hc
    exact hc ▸ h d (by simp)

/-- pyRstrip is the identity on whitespace-free text. -/
theorem pyRstrip_eq_self (l : Txt) (h : ∀ c ∈ l, isPySpace c = false) : pyRstrip l = l := by
  unfold pyRstrip
  rw [dropWhile_eq_self_of_all isPySpace l.reverse (fun c hc => h c (by simpa using hc)),
    List.reverse_reverse]

/-- Claim C8: a single whitespace-free token wider than maxW is emitted
verbatim as one overflowing line; it is never split. -/
theorem wrapLine_long_token (measure : Txt → Nat) (maxW : Int) (line : Txt)
    (hline : line ≠ [])
    (hns : ∀ c ∈ line, isPySpace c = false)
    (_hw : maxW < (measure line : Int)) :
    wrapLine measure maxW line = [line] := by
  unfold wrapLine wrapTokens
  rw [wrapTokensGo_no_space line [] hns]
  simp only [List.nil_append]
  rw [if_neg (by simp [List.isEmpty_iff, hline])]
  rw [wrapGo]
  rw [if_neg (by simp)]
  simp only [List.nil_append]
  rw [wrapGo]
  rw [if_neg (by simp [List.isEmpty_iff, hline])]
  rw [pyRstrip_eq_self line hns]

/-- Claim C8, witness. -/
theorem wrapLine_long_token_witness :
    wrapLine (fun s : Txt => s.length) 1 (("abcd").data) = [("abcd").data] :=
  wrapLine_long_token (fun s : Txt => s.length) 1 (("abcd").data) (by decide)
    (by decide) (by decide)

/-- Claim C6: the rendered image height never exceeds the hard 2000px cap,
and whenever minW is at most maxW (as with the 400 and 1200 defaults)
the width always lies within the interval minW to maxW. -/
theorem diffImage_bounds (measure : Txt → Nat) (lineHeight minW maxW lM rM : Int)
    (diffText : Txt) (hmm : minW ≤ maxW) :
    imageHeight measure lineHeight maxW lM rM diffText ≤ 2000 ∧
    minW ≤ imageWidth measure minW maxW lM rM diffText ∧
    imageWidth measure minW maxW lM rM diffText ≤ maxW := by
  refine ⟨min_le_right _ _, ?_, min_le_right _ _⟩
  exact le_min (le_max_right _ _) hmm

/-- Claim C6, witness at the default geometry. -/
theorem diffImage_bounds_witness :
    imageHeight (fun s : Txt => s.length) 20 1200 50 10 (("+a\n-b").data) ≤ 2000 ∧
    (400 : Int) ≤ imageWidth (fun s : Txt => s.length) 400 1200 50 10 (("+a\n-b").data) ∧
    imageWidth (fun s : Txt => s.length) 400 1200 50 10 (("+a\n-b").data) ≤ 1200 :=
  diffImage_bounds (fun s : Txt => s.length) 20 400 1200 50 10 (("+a\n-b").data) (by decide)

/-- Claim C9, amended: the colour is a fixed rule on the first character,
and the leading marker is stripped exactly when the line starts with a
marker character and has length greater than one; a line consisting of
a lone marker is drawn unchanged. -/
theorem lineColor_cleanLine_spec (c : Char) (rest : Txt) :
    (c = '+' → lineColor (c :: rest) = (155, 185, 85)) ∧
    (c = '-' → lineColor (c :: rest) = (224, 108, 117)) ∧
    (c = '@' → lineColor (c :: rest) = (86, 156, 214)) ∧
    (c ≠ '+' → c ≠ '-' → c ≠ '@' → lineColor (c :: rest) = (212, 212, 212)) ∧
    (isDiffMarker c = true → rest ≠ [] → cleanLine (c :: rest) = rest) ∧
    (isDiffMarker c = true → rest = [] → cleanLine (c :: rest) = c :: rest) ∧
    (isDiffMarker c = false → cleanLine (c :: rest) = c :: rest) := by
  refine ⟨?_, ?_, ?_, ?_, ?_, ?_, ?_⟩
  · rintro rfl; rfl
  · rintro rfl; rfl
  · rintro rfl; rfl
  · intro h1 h2 h3
    rw [lineColor.eq_def]
    split
    · rename_i heq; injection heq with hc _; exact absurd hc h1
    · rename_i heq; injection heq with hc _; exact absurd hc h2
    · rename_i heq; injection heq with hc _; exact absurd hc h3
    · rfl
  · intro hm hrest
    simp [cleanLine, hm, List.isEmpty_iff, hrest]
  · rintro hm rfl
    simp [cleanLine, hm]
  · intro hm
    simp [cleanLine, hm]

/-- Claim C9, witness: a context line of length two has its leading space
marker stripped and is drawn in the default colour. -/
theorem lineColor_cleanLine_witness :
    cleanLine (' ' :: 'x' :: []) = 'x' :: [] ∧
      lineColor (' ' :: 'x' :: []) = (212, 212, 212) :=
  ⟨(lineColor_cleanLine_spec ' ' ('x' :: [])).2.2.2.2.1 (by decide) (by decide),
    (lineColor_cleanLine_spec ' ' ('x' :: [])).2.2.2.1 (by decide) (by decide) (by decide)⟩

/-- Claim C9, counterexample: a line consisting of the single marker
character is not stripped before drawing, although it starts with a
marker; the claim would require the drawn body to be empty. -/
theorem cleanLine_lone_marker_cex :
    cleanLine ('+' :: []) = '+' :: [] ∧ ('+' :: ([] : Txt)) ≠ ([] : Txt) := by
  constructor
  · rfl
  · decide

/-! ### Lemmas about user-agent selection -/

/-- containsSub decides substring containment. -/
theorem containsSub_iff (pat : Txt) : ∀ s : Txt, containsSub pat s = true ↔ pat <:+: s := by
  intro s
  induction s with
  | nil =>
    simp [containsSub, List.isEmpty_iff]
  | cons c rest ih =>
    simp only [containsSub, Bool.or_eq_true]
    rw [List.isPrefixOf_iff_prefix, ih, List.infix_cons_iff]

/-- Claim C10, amended: in both fetch modes the mobile user-agent string
is selected exactly when the host contains the substring m-dot
anywhere (not only when it begins with it). -/
theorem selectUserAgent_mobile_iff (dyn : Bool) (domain : Txt) :
    selectUserAgent dyn domain = mobileUA ↔ (("m.").data) <:+: domain := by
  unfold selectUserAgent isMobileDomain
  by_cases h : containsSub (("m.").data) domain = true
  · simp only [h, if_true]
    simpa using (containsSub_iff _ _).mp h
  · have h2 : ¬ ((("m.").data) <:+: domain) := fun hc => h ((containsSub_iff _ _).mpr hc)
    simp only [Bool.not_eq_true] at h
    simp only [h, Bool.false_eq_true, if_false]
    constructor
    · intro hd; exact absurd hd (by decide)
    · intro hc; exact absurd hc h2

/-- Claim C10, counterexample: a host that does not begin with m-dot but
contains it internally is still served the mobile user-agent. -/
theorem selectUserAgent_prefix_cex :
    selectUserAgent false (("team.example.com").data) = mobileUA ∧
      (("m.").data).isPrefixOf (("team.example.com").data) = false := by
  constructor
  · rfl
  · decide

/-! ### Claims about the orchestration -/

/-- Claim C1, amended: on the first run for a URL (no stored snapshot),
the orchestrator persists the formatted fetched content as the new
snapshot and appends exactly one audit line, but the first-capture
notice is sent to the broadcast channel (CHANNEL_ID), not to the admin
destination; no diff image is produced. -/
theorem firstRun_spec (fmtHtml : Txt → Txt) (content url ts : Txt) (isText : Bool)
    (raisedErr : Option Txt) (hok : startsWithError content = false) :
    (compareAndNotify fmtHtml content none isText raisedErr url ts).snapshot =
      some (if isText then content else fmtHtml content) ∧
    (compareAndNotify fmtHtml content none isText raisedErr url ts).msgs =
      [Msg.text Dest.channel (firstCaptureMsg url ts)] ∧
    (compareAndNotify fmtHtml content none isText raisedErr url ts).log =
      [capturedLog url ts] ∧
    (compareAndNotify fmtHtml content none isText raisedErr url ts).imageWritten = false := by
  unfold compareAndNotify
  rw [if_neg (by simp [hok])]
  refine ⟨?_, ?_, ?_, ?_⟩ <;> trivial

/-- Claim C1, witness for the amended statement. -/
theorem firstRun_spec_witness :
    (compareAndNotify (fun t => t) (("A").data) none false none (("u").data) (("t").data)).snapshot =
      some (("A").data) ∧
    (compareAndNotify (fun t => t) (("A").data) none false none (("u").data) (("t").data)).msgs =
      [Msg.text Dest.channel (firstCaptureMsg (("u").data) (("t").data))] ∧
    (compareAndNotify (fun t => t) (("A").data) none false none (("u").data) (("t").data)).log =
      [capturedLog (("u").data) (("t").data)] ∧
    (compareAndNotify (fun t => t) (("A").data) none false none (("u").data)
      (("t").data)).imageWritten = false :=
  firstRun_spec (fun t => t) (("A").data) (("u").data) (("t").data) false none (by decide)

/-- Claim C1, counterexample: on a first run the single notification goes
to the broadcast channel, so the notice is not admin-only. -/
theorem firstRun_channel_cex :
    (compareAndNotify (fun t => t) (("A").data) none false none (("u").data) (("t").data)).msgs =
      [Msg.text Dest.channel (firstCaptureMsg (("u").data) (("t").data))] ∧
    Dest.channel ≠ Dest.admin := by
  exact ⟨rfl, by decide⟩

/-- Claim C2: on a fetch error the orchestrator sends a single admin-only
alert whose text contains the error text, appends exactly one audit
line, leaves the stored snapshot unchanged, and writes no image and no
diff. -/
theorem fetchFailed_spec (fmtHtml : Txt → Txt) (content : Txt) (stored : Option Txt)
    (isText : Bool) (raisedErr : Option Txt) (url ts : Txt)
    (herr : startsWithError content = true) :
    (compareAndNotify fmtHtml content stored isText raisedErr url ts).msgs =
      [Msg.text Dest.admin (fetchFailMsg url ts content)] ∧
    content <:+: fetchFailMsg url ts content ∧
    (compareAndNotify fmtHtml content stored isText raisedErr url ts).log =
      [fetchFailLog url ts content] ∧
    (compareAndNotify fmtHtml content stored isText raisedErr url ts).log.length = 1 ∧
    (compareAndNotify fmtHtml content stored isText raisedErr url ts).snapshot = stored ∧
    (compareAndNotify fmtHtml content stored isText raisedErr url ts).imageWritten = false ∧
    (compareAndNotify fmtHtml content stored isText raisedErr url ts).diffLines = none := by
  unfold compareAndNotify
  rw [if_pos herr]
  refine ⟨rfl, ?_, rfl, rfl, rfl, rfl, rfl⟩
  exact ⟨("⚠️ 无法访问: ").data ++ url ++ ("\n时间: ").data ++ ts ++ ("\n错误信息: ").data,
    [], by simp [fetchFailMsg]⟩

/-- Claim C2, witness. -/
theorem fetchFailed_spec_witness :
    (compareAndNotify (fun t => t) (("ERROR: boom").data) (some (("old").data)) false none
      (("u").data) (("t").data)).msgs =
      [Msg.text Dest.admin (fetchFailMsg (("u").data) (("t").data) (("ERROR: boom").data))] ∧
    ("ERROR: boom").data <:+:
      fetchFailMsg (("u").data) (("t").data) (("ERROR: boom").data) ∧
    (compareAndNotify (fun t => t) (("ERROR: boom").data) (some (("old").data)) false none
      (("u").data) (("t").data)).log =
      [fetchFailLog (("u").data) (("t").data) (("ERROR: boom").data)] ∧
    (compareAndNotify (fun t => t) (("ERROR: boom").data) (some (("old").data)) false none
      (("u").data) (("t").data)).log.length = 1 ∧
    (compareAndNotify (fun t => t) (("ERROR: boom").data) (some (("old").data)) false none
      (("u").data) (("t").data)).snapshot = some (("old").data) ∧
    (compareAndNotify (fun t => t) (("ERROR: boom").data) (some (("old").data)) false none
      (("u").data) (("t").data)).imageWritten = false ∧
    (compareAndNotify (fun t => t) (("ERROR: boom").data) (some (("old").data)) false none
      (("u").data) (("t").data)).diffLines = none :=
  fetchFailed_spec (fun t => t) (("ERROR: boom").data) (some (("old").data)) false none
    (("u").data) (("t").data) (by decide)

/-- Claim C5: when the comparison/render/notify phase raises, the
orchestrator still appends the normal audit line and still overwrites
the snapshot with the freshly formatted content (the persisted state is
not rolled back), and reports the failure to the admin; consequently a
next cycle that fetches the same body and whose formatting is stable on
it compares equal and sends nothing. -/
theorem changedPhaseException_spec (fmtHtml : Txt → Txt) (content old0 url ts err : Txt)
    (isText : Bool) (hok : startsWithError content = false)
    (hch : normalizeText (if isText then old0 else fmtHtml old0) ≠
      (if isText then content else fmtHtml content)) :
    (compareAndNotify fmtHtml content (some old0) isText (some err) url ts).log =
      [capturedLog url ts] ∧
    (compareAndNotify fmtHtml content (some old0) isText (some err) url ts).snapshot =
      some (if isText then content else fmtHtml content) ∧
    (compareAndNotify fmtHtml content (some old0) isText (some err) url ts).msgs =
      [Msg.text Dest.admin (compareFailMsg url err)] ∧
    (normalizeText (if isText then (if isText then content else fmtHtml content)
        else fmtHtml (if isText then content else fmtHtml content)) =
        (if isText then content else fmtHtml content) →
      (compareAndNotify fmtHtml content
        (some (if isText then content else fmtHtml content)) isText none url ts).msgs = []) := by
  unfold compareAndNotify
  rw [if_neg (by simp [hok])]
  simp only [if_pos hch]
  refine ⟨trivial, trivial, trivial, ?_⟩
  intro hstable
  rw [if_neg (by simp [hok])]
  simp only [hstable]
  simp

/-- Claim C5, witness: formatting is the identity, the old snapshot b
differs from the new body a, and the phase raises. -/
theorem changedPhaseException_spec_witness :
    (compareAndNotify (fun t => t) (("a").data) (some (("b").data)) true
      (some (("boom").data)) (("u").data) (("t").data)).log =
      [capturedLog (("u").data) (("t").data)] ∧
    (compareAndNotify (fun t => t) (("a").data) (some (("b").data)) true
      (some (("boom").data)) (("u").data) (("t").data)).snapshot = some (("a").data) ∧
    (compareAndNotify (fun t => t) (("a").data) (some (("b").data)) true
      (some (("boom").data)) (("u").data) (("t").data)).msgs =
      [Msg.text Dest.admin (compareFailMsg (("u").data) (("boom").data))] ∧
    (normalizeText (("a").data) = ("a").data →
      (compareAndNotify (fun t => t) (("a").data) (some (("a").data)) true none
        (("u").data) (("t").data)).msgs = []) := by
  have h := changedPhaseException_spec (fun t => t) (("a").data) (("b").data)
    (("u").data) (("t").data) (("boom").data) true (by decide) (by decide)
  exact ⟨h.1, h.2.1, h.2.2.1, fun _ => h.2.2.2 (by decide)⟩

/-! ### Lemmas about the diff engine

The goal of this section is the key DiffEngine fact: on two identical
line sequences the embedded difflib pipeline produces an empty unified
diff.  The dynamic programming pass of find_longest_match is
characterised through chainLen, the length of the matching chain ending
at a pair of positions. -/

/-- Positions i and j of a hold equal, non-popular elements. -/
def selfMatchB (a : List Txt) (i j : Nat) : Bool :=
  match a[i]?, a[j]? with
  | some x, some y => x = y ∧ ¬ isPopular a x
  | _, _ => false

/-- Length of the matching chain of non-popular equal elements ending at
the pair (i, j); this is the value the inner loop of
find_longest_match stores in j2len. -/
def chainLen (a : List Txt) : Nat → Nat → Nat
  | 0, j => if selfMatchB a 0 j then 1 else 0
  | i + 1, 0 => if selfMatchB a (i + 1) 0 then 1 else 0
  | i + 1, j + 1 => if selfMatchB a (i + 1) (j + 1) then chainLen a i j + 1 else 0

theorem selfMatchB_symm (a : List Txt) (i j : Nat) : selfMatchB a i j = selfMatchB a j i := by
  unfold selfMatchB
  cases hi : a[i]? with
  | none => cases hj : a[j]? with
    | none => rfl
    | some y => rfl
  | some x => cases hj : a[j]? with
    | none => rfl
    | some y =>
      by_cases hxy : x = y
      · subst hxy; rfl
      · simp [hxy, Ne.symm hxy]

theorem selfMatchB_diag_left (a : List Txt) (i j : Nat) (h : selfMatchB a i j = true) :
    selfMatchB a i i = true := by
  unfold selfMatchB at *
  cases hi : a[i]? with
  | none => rw [hi] at h; simp at h
  | some x =>
    rw [hi] at h
    cases hj : a[j]? with
    | none => rw [hj] at h; simp at h
    | some y =>
      rw [hj] at h
      simp at h
      simp [h.2]

theorem selfMatchB_diag_right (a : List Txt) (i j : Nat) (h : selfMatchB a i j = true) :
    selfMatchB a j j = true :=
  selfMatchB_diag_left a j i (selfMatchB_symm a i j ▸ h)

theorem chainLen_eq_zero (a : List Txt) (i j : Nat) (h : selfMatchB a i j = false) :
    chainLen a i j = 0 := by
  match i, j with
  | 0, j => simp [chainLen, h]
  | i + 1, 0 => simp [chainLen, h]
  | i + 1, j + 1 => simp [chainLen, h]

theorem chainLen_symm (a : List Txt) : ∀ i j, chainLen a i j = chainLen a j i := by
  intro i
  induction i with
  | zero =>
    intro j
    match j with
    | 0 => rfl
    | j + 1 => simp [chainLen, selfMatchB_symm a 0 (j + 1)]
  | succ i ih =>
    intro j
    match j with
    | 0 => simp [chainLen, selfMatchB_symm a (i + 1) 0]
    | j + 1 => simp [chainLen, selfMatchB_symm a (i + 1) (j + 1), ih j]

theorem chainLen_le_left (a : List Txt) : ∀ i j, chainLen a i j ≤ i + 1 := by
  intro i
  induction i with
  | zero => intro j; match j with
    | 0 => simp [chainLen]; split <;> omega
    | j + 1 => simp [chainLen]; split <;> omega
  | succ i ih => intro j; match j with
    | 0 => simp [chainLen]; split <;> omega
    | j + 1 =>
      simp only [chainLen]
      split
      · have := ih j; omega
      · omega

/-- The chain ending at (i, j) is no longer than the diagonal chain ending
at (j, j): all its elements are equal pairs of non-popular elements, so
they also chain along the diagonal. -/
theorem chainLen_le_diag (a : List Txt) : ∀ j i, chainLen a i j ≤ chainLen a j j := by
  intro j
  induction j with
  | zero =>
    intro i
    match i with
    | 0 => exact le_refl _
    | i + 1 =>
      simp only [chainLen]
      split
      · rename_i h
        rw [if_pos (selfMatchB_diag_right a (i + 1) 0 h)]
      · omega
  | succ j ih =>
    intro i
    match i with
    | 0 =>
      simp only [chainLen]
      split
      · rename_i h
        rw [if_pos (selfMatchB_diag_right a 0 (j + 1) h)]
        omega
      · omega
    | i + 1 =>
      simp only [chainLen]
      split
      · rename_i h
        rw [if_pos (selfMatchB_diag_right a (i + 1) (j + 1) h)]
        have := ih i
        omega
      · omega

/-- chainLen against the other diagonal. -/
theorem chainLen_le_diag_left (a : List Txt) (i j : Nat) :
    chainLen a i j ≤ chainLen a i i := by
  rw [chainLen_symm a i j]
  exact chainLen_le_diag a i j

theorem getElem?_lt_length {l : List Txt} {j : Nat} {x : Txt} (h : l[j]? = some x) :
    j < l.length := by
  by_contra hge
  rw [List.getElem?_eq_none (by omega)] at h
  simp at h

theorem scanJs_all (bhi : Nat) : ∀ l : List Nat, (∀ j ∈ l, j < bhi) → scanJs 0 bhi l = l := by
  intro l
  induction l with
  | nil => intro _; rfl
  | cons j js ih =>
    intro h
    unfold scanJs
    rw [if_neg (by omega)]
    rw [if_neg (by have := h j (by simp); omega)]
    rw [ih (fun x hx => h x (by simp [hx]))]

theorem scanJs_sublist (blo bhi : Nat) : ∀ l : List Nat, List.Sublist (scanJs blo bhi l) l := by
  intro l
  induction l with
  | nil => exact List.Sublist.refl []
  | cons j js ih =>
    unfold scanJs
    by_cases h1 : j < blo
    · rw [if_pos h1]
      exact ih.cons j
    · rw [if_neg h1]
      by_cases h2 : bhi ≤ j
      · rw [if_pos h2]
        exact List.nil_sublist _
      · rw [if_neg h2]
        exact ih.cons₂ j

theorem b2jList_mem (b : List Txt) (x : Txt) (j : Nat) :
    j ∈ b2jList b x ↔ (isPopular b x = false ∧ b[j]? = some x) := by
  unfold b2jList
  by_cases hp : isPopular b x
  · simp [hp]
  · rw [if_neg hp]
    simp only [List.mem_filter, List.mem_range, decide_eq_true_eq]
    constructor
    · rintro ⟨_, hx⟩
      exact ⟨by simp [hp], hx⟩
    · rintro ⟨_, hx⟩
      exact ⟨getElem?_lt_length hx, hx⟩

theorem jIndices_mem (a : List Txt) (i j : Nat) :
    j ∈ jIndices a a 0 a.length i ↔ selfMatchB a i j = true := by
  unfold jIndices
  cases hi : a[i]? with
  | none => simp [selfMatchB, hi]
  | some x =>
    dsimp only
    have hs : scanJs 0 a.length (b2jList a x) = b2jList a x :=
      scanJs_all a.length _ (fun j2 hj2 => getElem?_lt_length ((b2jList_mem a x j2).mp hj2).2)
    rw [hs, b2jList_mem]
    unfold selfMatchB
    rw [hi]
    cases hj : a[j]? with
    | none => simp
    | some y =>
      simp only [Option.some.injEq]
      constructor
      · rintro ⟨hp, hyx⟩
        simp [hyx, hp]
      · intro h
        simp at h
        obtain ⟨hxy, hp⟩ := h
        subst hxy
        simp [hp]

theorem jIndices_pairwise (a : List Txt) (i : Nat) :
    (jIndices a a 0 a.length i).Pairwise (· < ·) := by
  have hb : ∀ x : Txt, (b2jList a x).Pairwise (· < ·) := by
    intro x
    unfold b2jList
    by_cases hp : isPopular a x
    · simp [hp]
    · rw [if_neg hp]
      exact (List.pairwise_lt_range a.length).filter _
  unfold jIndices
  cases hi : a[i]? with
  | none => dsimp only; exact List.Pairwise.nil
  | some x =>
    dsimp only
    exact List.Pairwise.sublist (scanJs_sublist 0 a.length (b2jList a x)) (hb x)

/-- The k computed by the inner loop at a matching pair equals chainLen. -/
theorem chainLen_step (a : List Txt) (i j0 : Nat) (hsm : selfMatchB a i j0 = true) :
    chainLen a i j0 =
      (if j0 = 0 then 0 else (if i = 0 then 0 else chainLen a (i - 1) (j0 - 1))) + 1 := by
  match i, j0 with
  | 0, 0 => simp [chainLen, hsm]
  | 0, j + 1 => simp [chainLen, hsm]
  | i + 1, 0 => simp [chainLen, hsm]
  | i + 1, j + 1 => simp [chainLen, hsm]

theorem selfMatchB_lt (a : List Txt) (i j : Nat) (h : selfMatchB a i j = true) :
    i < a.length ∧ j < a.length := by
  unfold selfMatchB at h
  cases hi : a[i]? with
  | none => rw [hi] at h; simp at h
  | some x =>
    rw [hi] at h
    cases hj : a[j]? with
    | none => rw [hj] at h; simp at h
    | some y => exact ⟨getElem?_lt_length hi, getElem?_lt_length hj⟩

/-- Invariant of the inner loop of find_longest_match on identical
sequences over the full index range: the new j2len map records chainLen
on the processed indices, the best match stays on the diagonal, stays
inside the range, and dominates every diagonal chain seen so far. -/
theorem innerLoop_inv (a : List Txt) (i : Nat) (hi : i < a.length)
    (j2old : Nat → Nat)
    (hold : ∀ j, j2old j = if i = 0 then 0 else chainLen a (i - 1) j) :
    ∀ (rem : List Nat), ∀ (processed : List Nat) (new : Nat → Nat) (best : Nat × Nat × Nat),
      processed ++ rem = jIndices a a 0 a.length i →
      (∀ j, new j = if j ∈ processed then chainLen a i j else 0) →
      best.1 = best.2.1 →
      best.1 + best.2.2 ≤ a.length →
      (∀ i2, i2 < i → chainLen a i2 i2 ≤ best.2.2) →
      (i ∈ rem ∨ chainLen a i i ≤ best.2.2) →
      ((∀ j, (innerLoop j2old i rem new best).1 j = chainLen a i j) ∧
       (innerLoop j2old i rem new best).2.1 = (innerLoop j2old i rem new best).2.2.1 ∧
       (innerLoop j2old i rem new best).2.1 + (innerLoop j2old i rem new best).2.2.2 ≤
         a.length ∧
       (∀ i2, i2 < i → chainLen a i2 i2 ≤ (innerLoop j2old i rem new best).2.2.2) ∧
       chainLen a i i ≤ (innerLoop j2old i rem new best).2.2.2) := by
  intro rem
  induction rem with
  | nil =>
    intro processed new best hsplit hnew hdiag hsum hprev hdisj
    simp only [innerLoop]
    refine ⟨?_, hdiag, hsum, hprev, ?_⟩
    · intro j
      rw [hnew j]
      by_cases hj : j ∈ processed
      · rw [if_pos hj]
      · rw [if_neg hj]
        have hnm : ¬ selfMatchB a i j = true := by
          intro hsm
          apply hj
          have hmem : j ∈ jIndices a a 0 a.length i := (jIndices_mem a i j).mpr hsm
          rw [← hsplit] at hmem
          simpa using hmem
        exact (chainLen_eq_zero a i j (Bool.not_eq_true _ |>.mp hnm)).symm
    · rcases hdisj with h | h
      · simp at h
      · exact h
  | cons j0 rest ih =>
    intro processed new best hsplit hnew hdiag hsum hprev hdisj
    have hj0mem : j0 ∈ jIndices a a 0 a.length i := by
      rw [← hsplit]; simp
    have hsm : selfMatchB a i j0 = true := (jIndices_mem a i j0).mp hj0mem
    have hk : (if j0 = 0 then 0 else j2old (j0 - 1)) + 1 = chainLen a i j0 := by
      rw [chainLen_step a i j0 hsm]
      by_cases hj0 : j0 = 0
      · simp [hj0]
      · rw [if_neg hj0, if_neg hj0, hold (j0 - 1)]
    have hrest_gt : ∀ x ∈ rest, j0 < x := by
      have hpw := jIndices_pairwise a i
      rw [← hsplit] at hpw
      have hp2 := (List.pairwise_append.mp hpw).2.1
      exact fun x hx => (List.pairwise_cons.mp hp2).1 x hx
    simp only [innerLoop]
    set k := (if j0 = 0 then 0 else j2old (j0 - 1)) + 1 with hkdef
    have hkc : k = chainLen a i j0 := hk
    have hsplit2 : (processed ++ [j0]) ++ rest = jIndices a a 0 a.length i := by
      rw [← hsplit]; simp
    have hnew2 : ∀ j, (fun j2 => if j2 = j0 then k else new j2) j =
        if j ∈ processed ++ [j0] then chainLen a i j else 0 := by
      intro j
      by_cases hj : j = j0
      · subst hj
        simp [hkc]
      · simp only [hj, if_false]
        rw [hnew j]
        by_cases hjp : j ∈ processed
        · simp [hjp]
        · simp [hjp, hj]
    by_cases hup : best.2.2 < k
    · rcases lt_trichotomy j0 i with hlt | heq | hgt
      · exfalso
        have h1 : chainLen a i j0 ≤ chainLen a j0 j0 := chainLen_le_diag a j0 i
        have h2 := hprev j0 hlt
        omega
      · subst heq
        rw [if_pos hup]
        refine ih (processed ++ [j0]) _ _ hsplit2 hnew2 rfl ?_ ?_ ?_
        · have hb : k ≤ j0 + 1 := by
            rw [hkc]; exact chainLen_le_left a j0 j0
          simp only
          omega
        · intro i2 hi2
          have := hprev i2 hi2
          simp only
          omega
        · right
          simp only
          rw [hkc]
      · exfalso
        have hnotin : i ∉ j0 :: rest := by
          intro hmem
          rcases List.mem_cons.mp hmem with h | h
          · omega
          · exact absurd (hrest_gt i h) (by omega)
        have hib : chainLen a i i ≤ best.2.2 := by
          rcases hdisj with h | h
          · exact absurd h hnotin
          · exact h
        have h1 : chainLen a i j0 ≤ chainLen a i i := chainLen_le_diag_left a i j0
        omega
    · rw [if_neg hup]
      refine ih (processed ++ [j0]) _ _ hsplit2 hnew2 hdiag hsum hprev ?_
      rcases hdisj with h | h
      · rcases List.mem_cons.mp h with h2 | h2
        · right
          subst h2
          rw [← hkc]
          omega
        · left; exact h2
      · right; exact h

theorem outerLoop_append (a b : List Txt) (blo bhi : Nat) :
    ∀ (l1 l2 : List Nat) (f : Nat → Nat) (best : Nat × Nat × Nat),
      outerLoop a b blo bhi (l1 ++ l2) f best =
        outerLoop a b blo bhi l2 (outerLoop a b blo bhi l1 f best).1
          (outerLoop a b blo bhi l1 f best).2 := by
  intro l1
  induction l1 with
  | nil => intro l2 f best; rfl
  | cons i is ih =>
    intro l2 f best
    simp only [List.cons_append, outerLoop]
    exact ih l2 _ _

/-- Invariant of the outer loop of find_longest_match on identical
sequences: after the first m steps over the full range, j2len is
chainLen at outer index m-1, and the best match is a diagonal,
in-range match dominating every diagonal chain so far. -/
theorem outerLoop_inv (a : List Txt) :
    ∀ m : Nat, m ≤ a.length →
      ((∀ j, (outerLoop a a 0 a.length (List.range m) (fun _ => 0) (0, 0, 0)).1 j =
          if m = 0 then 0 else chainLen a (m - 1) j) ∧
       (outerLoop a a 0 a.length (List.range m) (fun _ => 0) (0, 0, 0)).2.1 =
         (outerLoop a a 0 a.length (List.range m) (fun _ => 0) (0, 0, 0)).2.2.1 ∧
       (outerLoop a a 0 a.length (List.range m) (fun _ => 0) (0, 0, 0)).2.1 +
         (outerLoop a a 0 a.length (List.range m) (fun _ => 0) (0, 0, 0)).2.2.2 ≤ a.length ∧
       (∀ i2, i2 < m → chainLen a i2 i2 ≤
         (outerLoop a a 0 a.length (List.range m) (fun _ => 0) (0, 0, 0)).2.2.2)) := by
  intro m
  induction m with
  | zero =>
    intro _
    simp only [List.range_zero, outerLoop]
    exact ⟨fun j => by simp, by trivial, by simp, fun i2 h => by omega⟩
  | succ m ih =>
    intro hm
    have hmlt : m < a.length := by omega
    obtain ⟨h1, h2, h3, h4⟩ := ih (by omega)
    rw [List.range_succ, outerLoop_append]
    simp only [outerLoop]
    have hdisj : m ∈ jIndices a a 0 a.length m ∨ chainLen a m m ≤
        (outerLoop a a 0 a.length (List.range m) (fun _ => 0) (0, 0, 0)).2.2.2 := by
      by_cases hsm : selfMatchB a m m = true
      · left; exact (jIndices_mem a m m).mpr hsm
      · right
        rw [chainLen_eq_zero a m m (by simpa using hsm)]
        omega
    have hinner := innerLoop_inv a m hmlt
      (outerLoop a a 0 a.length (List.range m) (fun _ => 0) (0, 0, 0)).1 h1
      (jIndices a a 0 a.length m) [] (fun _ => 0)
      (outerLoop a a 0 a.length (List.range m) (fun _ => 0) (0, 0, 0)).2
      (by simp) (fun j => by simp) h2 h3 h4 hdisj
    obtain ⟨g1, g2, g3, g4, g5⟩ := hinner
    refine ⟨?_, g2, g3, ?_⟩
    · intro j
      simp only [Nat.succ_ne_zero, if_false, Nat.add_sub_cancel]
      exact g1 j
    · intro i2 hi2
      by_cases hcase : i2 < m
      · exact g4 i2 hcase
      · have : i2 = m := by omega
        subst this
        exact g5


theorem extendBackNonjunk_self (a : List Txt) :
    ∀ t, t ≤ a.length → ∀ s, extendBackNonjunk a a 0 0 t t s = (0, 0, s + t) := by
  intro t
  induction t with
  | zero =>
    intro _ s
    rw [extendBackNonjunk]
    rw [dif_neg (by simp), Nat.add_zero]
  | succ t ih =>
    intro ht s
    have hts : t < a.length := by omega
    rw [extendBackNonjunk]
    rw [dif_pos ⟨by omega, by omega, rfl, rfl, by
      simp only [Nat.add_sub_cancel]
      simp [hts]⟩]
    simp only [Nat.add_sub_cancel]
    rw [ih (by omega) (s + 1)]
    have hss : s + 1 + t = s + (t + 1) := by omega
    rw [hss]

theorem extendFwdNonjunk_self (a : List Txt) :
    ∀ d m, m + d = a.length → extendFwdNonjunk a a a.length a.length 0 0 m = (0, 0, a.length) := by
  intro d
  induction d with
  | zero =>
    intro m hm
    rw [extendFwdNonjunk]
    rw [dif_neg (by simp; omega)]
    have hme : m = a.length := by omega
    rw [hme]
  | succ d ih =>
    intro m hm
    have hms : 0 + m < a.length := by omega
    have hms2 : m < a.length := by omega
    rw [extendFwdNonjunk]
    rw [dif_pos ⟨hms, hms, rfl, rfl, by simp [hms2]⟩]
    exact ih (m + 1) (by omega)

theorem extendBackJunk_id (a b : List Txt) (alo blo t u s : Nat) :
    extendBackJunk a b alo blo t u s = (t, u, s) := by
  rw [extendBackJunk]
  rw [dif_neg (by simp [isbjunk])]

theorem extendFwdJunk_id (a b : List Txt) (ahi bhi t u s : Nat) :
    extendFwdJunk a b ahi bhi t u s = (t, u, s) := by
  rw [extendFwdJunk]
  rw [dif_neg (by simp [isbjunk])]

/-- find_longest_match on two identical sequences over the full range
returns the whole sequence as the single match.  The dynamic
programming pass always leaves the best match on the diagonal (an
off-diagonal chain is dominated by the diagonal chain through the
earlier of its endpoints, which the strict-improvement update has
already processed), and the two non-junk extension loops then stretch
any diagonal match to the full sequence. -/
theorem findLongestMatch_self (a : List Txt) :
    findLongestMatch a a 0 a.length 0 a.length = (0, 0, a.length) := by
  unfold findLongestMatch
  have hrange : List.range' 0 (a.length - 0) = List.range a.length := by
    rw [Nat.sub_zero, ← List.range_eq_range']
  rw [hrange]
  dsimp only
  obtain ⟨h1, h2, h3, h4⟩ := outerLoop_inv a a.length (le_refl _)
  rw [← h2]
  rw [extendBackNonjunk_self a
    (outerLoop a a 0 a.length (List.range a.length) (fun _ => 0) (0, 0, 0)).2.1 (by omega)
    (outerLoop a a 0 a.length (List.range a.length) (fun _ => 0) (0, 0, 0)).2.2.2]
  dsimp only
  rw [extendFwdNonjunk_self a
    (a.length - ((outerLoop a a 0 a.length (List.range a.length) (fun _ => 0) (0, 0, 0)).2.2.2 +
      (outerLoop a a 0 a.length (List.range a.length) (fun _ => 0) (0, 0, 0)).2.1))
    ((outerLoop a a 0 a.length (List.range a.length) (fun _ => 0) (0, 0, 0)).2.2.2 +
      (outerLoop a a 0 a.length (List.range a.length) (fun _ => 0) (0, 0, 0)).2.1)
    (by omega)]
  rw [extendBackJunk_id, extendFwdJunk_id]

theorem gmbLoop_self (a : List Txt) :
    gmbLoop a a (a.length + a.length + 1) [(0, a.length, 0, a.length)] [] =
      if a.length = 0 then [] else [(0, 0, a.length)] := by
  rw [show a.length + a.length + 1 = Nat.succ (a.length + a.length) from rfl]
  rw [gmbLoop.eq_3]
  rw [findLongestMatch_self]
  dsimp only
  by_cases hn : a.length = 0
  · rw [if_pos hn]
    rw [if_neg (by simp [hn]), if_neg (by simp [hn]), if_neg (by simp [hn])]
    simp only [List.append_nil, List.nil_append]
    rw [hn]
    rfl
  · rw [if_neg hn]
    rw [if_neg (by simp), if_neg (by simp), if_pos (by simpa using hn)]
    simp only [List.append_nil, List.nil_append]
    obtain ⟨m, hm⟩ : ∃ m, a.length + a.length = Nat.succ m :=
      ⟨a.length + a.length - 1, by omega⟩
    rw [hm, gmbLoop.eq_2]

theorem getMatchingBlocks_self (a : List Txt) :
    getMatchingBlocks a a =
      if a.length = 0 then [(0, 0, 0)]
      else [(0, 0, a.length), (a.length, a.length, 0)] := by
  unfold getMatchingBlocks
  dsimp only
  rw [gmbLoop_self]
  by_cases hn : a.length = 0
  · rw [if_pos hn, if_pos hn, hn]
    rfl
  · rw [if_neg hn, if_neg hn]
    rw [show sortBlocks [(0, 0, a.length)] = [(0, 0, a.length)] from rfl]
    rw [mergeBlocks]
    rw [if_pos (by simp)]
    rw [mergeBlocks]
    rw [if_pos (by simpa using hn)]
    simp

theorem getOpcodes_self (a : List Txt) :
    getOpcodes a a =
      if a.length = 0 then [] else [(DTag.equal, 0, a.length, 0, a.length)] := by
  unfold getOpcodes
  rw [getMatchingBlocks_self]
  by_cases hn : a.length = 0
  · rw [if_pos hn, if_pos hn]
    rfl
  · rw [if_neg hn, if_neg hn]
    rw [opcodesGo]
    rw [if_neg (by simp), if_neg (by simp), if_neg (by simp), if_pos (by simpa using hn)]
    rw [opcodesGo]
    rw [if_neg (by simp), if_neg (by simp), if_neg (by simp), if_neg (by simp)]
    rw [opcodesGo]
    simp

theorem getGroupedOpcodes_self (a : List Txt) : getGroupedOpcodes a a 3 = [] := by
  unfold getGroupedOpcodes
  dsimp only
  rw [getOpcodes_self]
  by_cases hn : a.length = 0
  · rw [if_pos hn]
    rfl
  · rw [if_neg hn]
    rw [if_neg (by simp)]
    rw [show modifyFirst (trimStart 3) [(DTag.equal, 0, a.length, 0, a.length)] =
      [trimStart 3 (DTag.equal, 0, a.length, 0, a.length)] from rfl]
    rw [show trimStart 3 (DTag.equal, 0, a.length, 0, a.length) =
      (DTag.equal, max 0 (a.length - 3), a.length, max 0 (a.length - 3), a.length) from rfl]
    rw [show modifyLast (trimEnd 3)
        [(DTag.equal, max 0 (a.length - 3), a.length, max 0 (a.length - 3), a.length)] =
      [trimEnd 3 (DTag.equal, max 0 (a.length - 3), a.length,
        max 0 (a.length - 3), a.length)] from rfl]
    rw [show trimEnd 3 (DTag.equal, max 0 (a.length - 3), a.length,
        max 0 (a.length - 3), a.length) =
      (DTag.equal, max 0 (a.length - 3), min a.length (max 0 (a.length - 3) + 3),
        max 0 (a.length - 3), min a.length (max 0 (a.length - 3) + 3)) from rfl]
    rw [groupSplit]
    rw [if_neg (by
      simp only [not_and]
      intro _
      simp only [not_lt]
      omega)]
    simp only [List.nil_append]
    rw [groupSplit.eq_2]
    rw [if_pos rfl]

/-- The DiffEngine fact: the unified diff of two identical line
sequences (context 3, as used by the orchestrator) is empty — no
headers, no hunks. -/
theorem unifiedDiff_self_lines (l : List Txt) : unifiedDiff l l 3 = [] := by
  unfold unifiedDiff
  rw [getGroupedOpcodes_self]
  rfl

/-- Claim C3: the comparison reports no change exactly when the two
normalized texts are byte-identical; in that case no diff is computed
and no image is produced, and the unified diff of any text against
itself is empty; when the texts differ, the computed diff is the
line-based unified diff with a context window of 3 lines. -/
theorem diffEngine_spec (fmtHtml : Txt → Txt) (content old0 url ts : Txt) (isText : Bool)
    (hok : startsWithError content = false) :
    ((compareAndNotify fmtHtml content (some old0) isText none url ts).msgs = [] ↔
      normalizeText (if isText then old0 else fmtHtml old0) =
        (if isText then content else fmtHtml content)) ∧
    (normalizeText (if isText then old0 else fmtHtml old0) =
        (if isText then content else fmtHtml content) →
      (compareAndNotify fmtHtml content (some old0) isText none url ts).imageWritten = false ∧
      (compareAndNotify fmtHtml content (some old0) isText none url ts).diffLines = none) ∧
    (∀ t : Txt, unifiedDiff (pySplitLines t) (pySplitLines t) 3 = []) ∧
    (normalizeText (if isText then old0 else fmtHtml old0) ≠
        (if isText then content else fmtHtml content) →
      (compareAndNotify fmtHtml content (some old0) isText none url ts).diffLines =
        some (unifiedDiff
          (pySplitLines (normalizeText (if isText then old0 else fmtHtml old0)))
          (pySplitLines (if isText then content else fmtHtml content)) 3) ∧
      (compareAndNotify fmtHtml content (some old0) isText none url ts).imageWritten =
        true) := by
  unfold compareAndNotify
  rw [if_neg (by simp [hok])]
  dsimp only
  by_cases hch : normalizeText (if isText then old0 else fmtHtml old0) =
      (if isText then content else fmtHtml content)
  · rw [if_neg (by simpa using hch)]
    refine ⟨?_, fun _ => ⟨rfl, rfl⟩, fun t => unifiedDiff_self_lines _, fun hne => absurd hch hne⟩
    simp [hch]
  · rw [if_pos (by simpa using hch)]
    refine ⟨?_, fun heq => absurd heq hch, fun t => unifiedDiff_self_lines _,
      fun _ => ⟨rfl, rfl⟩⟩
    constructor
    · intro hmsg
      simp at hmsg
    · intro heq
      exact absurd heq hch

/-- Claim C3, witness: with identity formatting and equal old/new texts
the cycle sends nothing. -/
theorem diffEngine_spec_witness :
    (compareAndNotify (fun t => t) (("a").data) (some (("a").data)) true none
      (("u").data) (("t").data)).msgs = [] :=
  ((diffEngine_spec (fun t => t) (("a").data) (("a").data) (("u").data) (("t").data) true
    (by decide)).1).mpr (by decide)
